import Mathlib

/-!
# A shallow embedding of `pdfgen.py` (Custom-pdf-generator-library)

This file models, in Lean 4, the data model and operations of the PDF
generator in `src/proj_mdg/pdfgen.py`, and proves properties of the model
corresponding to the specification's claims.

Modelling conventions:
* Python `bytes` values are `List Nat` (each entry a byte value 0..255);
  `str.encode("latin1")` maps each character to its code point, which is
  what `strBytes` below does for the ASCII/latin-1 strings the code emits.
* Python `float` arithmetic is modelled exactly over `ℚ`; `int(x)` is
  truncation toward zero (`pyInt`).  The generator only ever formats these
  numbers into content bytes that no claim inspects digit by digit.
* Python exceptions are modelled with `Except`; an error result carries no
  output bytes, which mirrors the fact that `PDF.save` only opens the
  output file after all structural checks have passed.
-/

set_option autoImplicit false

/-- Latin-1 bytes of an ASCII string (model of `str.encode()` /
`str.encode("latin1")` for the pure-ASCII text the generator emits). -/
def strBytes (s : String) : List Nat := s.toList.map Char.toNat

/-- Little-endian decimal digits of `n`, with explicit fuel so the kernel can
evaluate it.  `decimalAux n n` is always fully evaluated since `n / 10 < n`. -/
def decimalAux : Nat → Nat → List Nat
  | _, 0 => []
  | 0, _ + 1 => []
  | f + 1, n + 1 => (48 + (n + 1) % 10) :: decimalAux f ((n + 1) / 10)

/-- The bytes of `str(n)` for a natural number `n` (decimal, no sign). -/
def decimal (n : Nat) : List Nat :=
  if n = 0 then [48] else (decimalAux n n).reverse

/-- The placeholder token `b"\x7bpages\x7d"` used by `PDF.save` for the
forward reference from each page object to the page-tree object. -/
def pagesTok : List Nat := [123, 112, 97, 103, 101, 115, 125]

/-- `isPre pat s` is true when `pat` is a prefix of `s`
(the prefix test underlying Python `bytes.startswith` / substring search). -/
def isPre : List Nat → List Nat → Bool
  | [], _ => true
  | _ :: _, [] => false
  | a :: as, b :: bs => a == b && isPre as bs

/-- `containsSub pat s` models the Python expression `pat in s` on `bytes`:
true iff `pat` occurs as a contiguous subsequence of `s`. -/
def containsSub (pat : List Nat) : List Nat → Bool
  | [] => isPre pat []
  | c :: t => isPre pat (c :: t) || containsSub pat t

/-- Core of `bytes.replace`: scans left to right, replacing each
non-overlapping occurrence of `pat` by `rep`.  `fuel` bounds the scan length
(it is instantiated with the length of the scanned list) so the recursion is
structural and kernel-reducible. -/
def replACore (pat rep : List Nat) : Nat → List Nat → List Nat
  | _, [] => []
  | 0, s => s
  | f + 1, c :: t =>
    if pat.length = 0 then c :: replACore pat rep f t
    else if isPre pat (c :: t) then rep ++ replACore pat rep f ((c :: t).drop pat.length)
    else c :: replACore pat rep f t

/-- Model of Python `s.replace(pat, rep)` on `bytes` for a non-empty
pattern (the only use in `pdfgen.py` is `data.replace(b"\x7bpages\x7d", ...)`;
CPython's special behaviour for an empty pattern is irrelevant here). -/
def replaceAll (pat rep s : List Nat) : List Nat :=
  if pat.isEmpty then s else replACore pat rep s.length s

/-- A PDF object store entry: assigned object number paired with its
serialized payload (the elements of `PDF.objects`). -/
abbrev Store := List (Nat × List Nat)

/-- Model of `PDF.add_object` (pdfgen.py:423): the new object number is
`len(self.objects) + 1` and the pair is appended to the store. -/
def addObject (st : Store) (content : List Nat) : Nat × Store :=
  (st.length + 1, st ++ [(st.length + 1, content)])

/-- A sequence of `add_object` calls, returning the assigned numbers in call
order together with the final store. -/
def addObjects (st : Store) : List (List Nat) → List Nat × Store
  | [] => ([], st)
  | c :: cs =>
    let r := addObject st c
    let rs := addObjects r.2 cs
    (r.1 :: rs.1, rs.2)

section TextWrap

/-- Python `str` whitespace test, restricted to the ASCII whitespace
characters (`str.split`/`str.strip` in `pdfgen.py` only ever see ASCII). -/
def isSpc (c : Char) : Bool :=
  c == ' ' || c == '\t' || c == '\n' || c == '\r' || c == '\x0b' || c == '\x0c'

/-- Model of Python `str.strip()`: remove leading and trailing whitespace. -/
def strip (s : List Char) : List Char :=
  ((s.dropWhile isSpc).reverse.dropWhile isSpc).reverse

/-- Helper for `splitWs`: accumulates the current word (reversed) while
scanning. -/
def splitWsAux (cur : List Char) : List Char → List (List Char)
  | [] => if cur.isEmpty then [] else [cur.reverse]
  | c :: rest =>
    if isSpc c then
      (if cur.isEmpty then [] else [cur.reverse]) ++ splitWsAux [] rest
    else
      splitWsAux (c :: cur) rest

/-- Model of Python `text.split()` (no argument): split on runs of
whitespace, discarding empty pieces. -/
def splitWs (s : List Char) : List (List Char) := splitWsAux [] s

/-- Python `int(q)` on a (rational-valued) number: truncation toward zero.
`Int.tdiv` truncates toward zero and a `Rat`'s denominator is positive. -/
def pyInt (q : ℚ) : Int := q.num.tdiv q.den

/-- The character budget computed by `Page.wrap_text` (pdfgen.py:110-111):
`avg_char_width = 0.5 * font_size; max_chars = int(max_width / avg_char_width)`. -/
def maxCharsOf (maxWidth fontSize : ℚ) : Int :=
  pyInt (maxWidth / (1/2 * fontSize))

/-- The word loop of `Page.wrap_text` (pdfgen.py:113-123).  The second match
argument is `current_line`; on overflow the (possibly empty) current line is
appended and the word starts a new line; at the end a non-empty current line
is appended (`if current_line:` is Python truthiness, i.e. non-emptiness). -/
def wrapLoop (maxChars : Int) : List (List Char) → List Char → List (List Char)
  | [], current => if current = [] then [] else [current]
  | w :: ws, current =>
    let test := strip (current ++ ' ' :: w)
    if (test.length : Int) ≤ maxChars then wrapLoop maxChars ws test
    else current :: wrapLoop maxChars ws w

/-- Model of `Page.wrap_text(text, max_width, font_size)` (pdfgen.py:93-123). -/
def wrapText (text : List Char) (maxWidth fontSize : ℚ) : List (List Char) :=
  wrapLoop (maxCharsOf maxWidth fontSize) (splitWs text) []

end TextWrap

section Color

/-- Python exception kinds raised by the color utilities. -/
inductive PyErr where
  | valueError
  | typeError
deriving DecidableEq

/-- Hexadecimal digit test, as accepted by Python `int(s, 16)` for plain
digit characters. -/
def isHexDig (c : Char) : Bool :=
  ('0' ≤ c && c ≤ '9') || ('a' ≤ c && c ≤ 'f') || ('A' ≤ c && c ≤ 'F')

/-- Value of a hexadecimal digit character. -/
def hexVal (c : Char) : Nat :=
  if '0' ≤ c ∧ c ≤ '9' then c.toNat - 48
  else if 'a' ≤ c ∧ c ≤ 'f' then c.toNat - 87
  else c.toNat - 55

/-- Model of Python `int(s, 16)` on the inputs `hex_to_rgb` feeds it: a
non-empty all-hex-digit string parses to its value, anything else raises
`ValueError`.  (CPython additionally tolerates surrounding whitespace, signs
and underscores; `hex_to_rgb` never produces such slices from a valid hex
color, and no claim depends on them.) -/
def pyIntBase16 (s : List Char) : Except PyErr Nat :=
  if s ≠ [] ∧ s.all isHexDig then
    .ok (s.foldl (fun a c => 16 * a + hexVal c) 0)
  else .error .valueError

/-- Model of `hex_to_rgb` (pdfgen.py:7-30): strip whitespace, strip leading
`#` markers, expand a 3-digit shorthand by doubling each character, require
length 6, then parse the three 2-character slices in base 16. -/
def hexToRgb (s : List Char) : Except PyErr (Nat × Nat × Nat) :=
  let h0 := (strip s).dropWhile (fun c => c == '#')
  let h1 := if h0.length = 3 then h0.flatMap (fun c => [c, c]) else h0
  if h1.length ≠ 6 then .error .valueError
  else do
    let r ← pyIntBase16 (h1.take 2)
    let g ← pyIntBase16 ((h1.drop 2).take 2)
    let b ← pyIntBase16 ((h1.drop 4).take 2)
    .ok (r, g, b)

/-- `Page.color_MAP` (pdfgen.py:50-70), in source order. -/
def colorMap : List (String × Nat × Nat × Nat) :=
  [("black", 0, 0, 0), ("white", 255, 255, 255), ("red", 255, 0, 0),
   ("green", 0, 128, 0), ("blue", 0, 0, 255), ("yellow", 255, 255, 0),
   ("cyan", 0, 255, 255), ("magenta", 255, 0, 255), ("gray", 128, 128, 128),
   ("orange", 255, 165, 0), ("purple", 128, 0, 128), ("pink", 255, 192, 203),
   ("brown", 139, 69, 19), ("navy", 0, 0, 128), ("teal", 0, 128, 128),
   ("olive", 128, 128, 0), ("maroon", 128, 0, 0), ("gold", 255, 215, 0),
   ("lime", 0, 255, 0)]

/-- The string branch of `parse_color` inside `Page.add_text`
(pdfgen.py:165-172): a string starting with `#` goes to `hex_to_rgb`; else
its lowercasing is looked up in `color_MAP`; else `ValueError` is raised.
(The tuple/list branch, pdfgen.py:173-175, passes a 3-element sequence
through unchanged and is irrelevant to string inputs.) -/
def parseColorStr (s : List Char) : Except PyErr (Nat × Nat × Nat) :=
  if s.head? = some '#' then hexToRgb s
  else
    match colorMap.find? (fun e => e.1.toList = s.map Char.toLower) with
    | some e => .ok e.2
    | none => .error .valueError

/-- Normalization applied by `add_text` (pdfgen.py:178):
`max(0, min(255, int(c))) / 255` per component. -/
def normalizeColor (t : Nat × Nat × Nat) : ℚ × ℚ × ℚ :=
  ((max 0 (min 255 t.1) : ℚ) / 255, (max 0 (min 255 t.2.1) : ℚ) / 255,
   (max 0 (min 255 t.2.2) : ℚ) / 255)

end Color

section AddText

/-- A hyperlink region recorded on a page by `add_text`
(pdfgen.py:260-262): the tuple `(line_x, line_y, text_width, text_height,
link)` appended to `page.links`. -/
structure SLink where
  x : ℚ
  y : ℚ
  w : ℚ
  h : ℚ
  uri : List Char
deriving DecidableEq

/-- `text_width = len(line) * avg_char_width` with
`avg_char_width = 0.5 * size` (pdfgen.py:196-197). -/
def textWidth (size : ℚ) (line : List Char) : ℚ :=
  (line.length : ℚ) * (1/2 * size)

/-- `line_y = y - i * (size * 1.2)` (pdfgen.py:199). -/
def lineY (y size : ℚ) (i : Nat) : ℚ := y - (i : ℚ) * (size * (12/10))

/-- The alignment shift of `add_text` (pdfgen.py:209-213). -/
def lineX (x tw : ℚ) (align : String) : ℚ :=
  if align = "center" then x - tw / 2
  else if align = "right" then x - tw
  else x

/-- The per-line body of `add_text`'s loop restricted to link recording
(pdfgen.py:195-262): for every emitted line, when a link target is present,
the tuple `(line_x, line_y, text_width, text_height, link)` is appended. -/
def addTextLinkLoop (x y size : ℚ) (align : String) (uri : List Char) :
    Nat → List (List Char) → List SLink
  | _, [] => []
  | i, l :: ls =>
    ⟨lineX x (textWidth size l) align, lineY y size i, textWidth size l, size, uri⟩ ::
      addTextLinkLoop x y size align uri (i + 1) ls

/-- `lines = self.wrap_text(text, max_width, size) if max_width else [text]`
(pdfgen.py:194). -/
def textLines (text : List Char) (maxWidth : Option ℚ) (size : ℚ) :
    List (List Char) :=
  match maxWidth with
  | some mw => wrapText text mw size
  | none => [text]

/-- The effect of one `Page.add_text` call on `page.links`
(pdfgen.py:194-262).  Stream-fragment construction (background rectangle,
text operator, underline/strike strokes) mutates only `page.text_elements`
and is omitted here; the link tuples carry the full per-line geometry.  In
the source the append happens inside the line loop guarded by `if link:`,
which is equivalent to the hoisted match below. -/
def addTextLinks (links0 : List SLink) (text : List Char) (x y size : ℚ)
    (align : String) (maxWidth : Option ℚ) (link : Option (List Char)) :
    List SLink :=
  match link with
  | some uri => links0 ++ addTextLinkLoop x y size align uri 0 (textLines text maxWidth size)
  | none => links0

end AddText

section Serializer

/-- Floor of a rational, computed as Euclidean division of numerator by
(positive) denominator. -/
def ratFloor (q : ℚ) : Int := q.num.ediv q.den

/-- Rendering of `f"\x7bv:.2f\x7d"` for the coordinates the generator formats:
two fixed decimal places.  Rounding of the underlying binary float is
idealized to exact rational round-half-up; no claim inspects these digits. -/
def fmt2 (q : ℚ) : List Nat :=
  let m := ratFloor (q * 100 + 1/2)
  let core := decimal (m.natAbs / 100) ++ [46] ++
    (if m.natAbs % 100 < 10 then 48 :: decimal (m.natAbs % 100)
     else decimal (m.natAbs % 100))
  if m < 0 then 45 :: core else core

/-- A `Page` as `PDF.save` consumes it: dimensions, the page's full compiled
content-stream bytes (the result of `get_stream_bytes` plus the caption and
page-number fragments appended in pdfgen.py:554-588 — all of which happen
before the stream's length is taken), the image-usage list
(pdfgen.py:89,285-286; the `None` component is the not-yet-resolved object
number), and the recorded links.  NOTE: in the source, `add_image`'s guard
`if name not in self.image_usages` compares a *string* against a list of
*(name, None) pairs* and therefore never fires, so every `add_image` call
appends an entry; duplicates are harmless for everything modelled here. -/
structure SPage where
  width : ℚ
  height : ℚ
  streamBytes : List Nat
  imageUsages : List (List Nat × Option Nat)
  links : List SLink
deriving DecidableEq

/-- A document as `PDF.save` consumes it: pages, the object store built by
prior `add_object` calls (e.g. from `embed_image`), and the image registry
mapping each internal image name to its assigned object number
(`self.images`; the PIL image handle and pixel sizes also stored there feed
only `get_stream_bytes`, which is already folded into `streamBytes`). -/
structure SPDF where
  pages : List SPage
  objects : Store
  images : List (List Nat × Nat)
deriving DecidableEq

/-- Structural errors raised by `PDF.save` before the output file is opened.
The source raises `ValueError(f"Image object for ... not found.")`
(pdfgen.py:548), which the specification names `UnresolvedResource`. -/
inductive SaveError where
  | unresolvedResource (name : List Nat)
deriving DecidableEq

/-- A page after the resolution loop (pdfgen.py:545-550) replaced each
usage's `None` with the image's object number. -/
structure RPage where
  width : ℚ
  height : ℚ
  streamBytes : List Nat
  imageUsages : List (List Nat × Nat)
  links : List SLink
deriving DecidableEq

/-- The successful result of `PDF.save`: the final object list in the order
written, the byte offset recorded for each object (the `f.tell()` values,
pdfgen.py:660-662), the cross-reference section's own offset, and the
complete output bytes. -/
structure FileOut where
  objs : Store
  offsets : List Nat
  xrefOffset : Nat
  bytes : List Nat
deriving DecidableEq

/-- `font_map` of `PDF.save` (pdfgen.py:517-522), in insertion order. -/
def fontPairs : List (String × String) :=
  [("Helvetica", "Helvetica"), ("HelveticaBold", "Helvetica-Bold"),
   ("HelveticaOblique", "Helvetica-Oblique"),
   ("HelveticaBoldOblique", "Helvetica-BoldOblique")]

/-- The font objects created by `PDF.save` (pdfgen.py:525-531). -/
def fontObjContents : List (List Nat) :=
  fontPairs.map fun kv =>
    strBytes ("<< /Type /Font /Subtype /Type1 /Name /" ++ kv.1 ++
      " /BaseFont /" ++ kv.2 ++ " >>")

/-- Lookup of an image name in the registry (the `image_objs` dict built in
pdfgen.py:534-537). -/
def lookupImage (images : List (List Nat × Nat)) (nm : List Nat) : Option Nat :=
  (images.find? (fun p => p.1 == nm)).map (·.2)

/-- The inner resolution loop of pdfgen.py:546-550 over one page's usage
list: the first name missing from the registry raises. -/
def resolveUsages (images : List (List Nat × Nat)) :
    List (List Nat × Option Nat) → Except SaveError (List (List Nat × Nat))
  | [] => .ok []
  | u :: rest =>
    match lookupImage images u.1 with
    | none => .error (.unresolvedResource u.1)
    | some ob =>
      match resolveUsages images rest with
      | .error e => .error e
      | .ok rs => .ok ((u.1, ob) :: rs)

/-- The outer resolution loop of pdfgen.py:545-550 over all pages. -/
def resolvePages (images : List (List Nat × Nat)) :
    List SPage → Except SaveError (List RPage)
  | [] => .ok []
  | pg :: rest =>
    match resolveUsages images pg.imageUsages with
    | .error e => .error e
    | .ok us =>
      match resolvePages images rest with
      | .error e => .error e
      | .ok rs => .ok (⟨pg.width, pg.height, pg.streamBytes, us, pg.links⟩ :: rs)

/-- The content-stream object wrapper (pdfgen.py:591-593):
`f"<< /Length \x7blen(stream)\x7d >>\nstream\n".encode() + stream + b"\nendstream"`. -/
def contentStreamObj (stream : List Nat) : List Nat :=
  strBytes "<< /Length " ++ decimal stream.length ++ strBytes " >>\nstream\n" ++
    stream ++ strBytes "\nendstream"

/-- The image XObject stream built by `embed_image` without compression
(pdfgen.py:491-494); `imgData` is `img.tobytes()`. -/
def imageStreamRaw (width height : Nat) (imgData : List Nat) : List Nat :=
  strBytes "<< /Type /XObject /Subtype /Image /Width " ++ decimal width ++
    strBytes " /Height " ++ decimal height ++
    strBytes " /ColorSpace /DeviceRGB /BitsPerComponent 8 /Length " ++
    decimal imgData.length ++ strBytes " >>\n" ++ strBytes "stream\n" ++
    imgData ++ strBytes "\nendstream"

/-- The image XObject stream built by `embed_image` with JPEG compression
(pdfgen.py:481-485); `imgData` is the JPEG-encoded buffer. -/
def imageStreamJpeg (width height : Nat) (imgData : List Nat) : List Nat :=
  strBytes "<< /Type /XObject /Subtype /Image /Width " ++ decimal width ++
    strBytes " /Height " ++ decimal height ++
    strBytes " /ColorSpace /DeviceRGB /BitsPerComponent 8 /Filter /DCTDecode /Length " ++
    decimal imgData.length ++ strBytes " >>\n" ++ strBytes "stream\n" ++
    imgData ++ strBytes "\nendstream"

/-- `" ".join(...)` on byte strings. -/
def joinSp (xs : List (List Nat)) : List Nat := List.intercalate (strBytes " ") xs

/-- `font_resource_str` (pdfgen.py:602-603). -/
def fontResourceStr (fontIds : List Nat) : List Nat :=
  joinSp ((fontPairs.zip fontIds).map fun p =>
    strBytes ("/" ++ p.1.1 ++ " ") ++ decimal p.2 ++ strBytes " 0 R")

/-- `xobj_str` (pdfgen.py:606-610). -/
def xobjStr (us : List (List Nat × Nat)) : List Nat :=
  if us.isEmpty then []
  else
    strBytes "/XObject << " ++
      joinSp (us.map fun p => strBytes "/" ++ p.1 ++ strBytes " " ++
        decimal p.2 ++ strBytes " 0 R") ++ strBytes " >>"

/-- One link's annotation object (pdfgen.py:614-617); the URI string is
latin-1 encoded into the payload. -/
def annotContent (l : SLink) : List Nat :=
  strBytes "<< /Type /Annot /Subtype /Link /Rect [" ++ fmt2 l.x ++
    strBytes " " ++ fmt2 l.y ++ strBytes " " ++ fmt2 (l.x + l.w) ++
    strBytes " " ++ fmt2 (l.y + l.h) ++
    strBytes "] /Border [0 0 0] /A << /S /URI /URI (" ++
    l.uri.map Char.toNat ++ strBytes ") >> >>"

/-- `annots_str` (pdfgen.py:622). -/
def annotsStr (refs : List Nat) : List Nat :=
  if refs.isEmpty then []
  else strBytes "/Annots [" ++ joinSp (refs.map fun r => decimal r ++ strBytes " 0 R") ++
    strBytes "]"

/-- One page object's payload (pdfgen.py:624-633), containing the
`\x7bpages\x7d` placeholder for the not-yet-created page-tree object. -/
def pageObjContent (fontIds : List Nat) (pg : RPage) (contentRef : Nat)
    (annotRefs : List Nat) : List Nat :=
  let resource := strBytes "/Font << " ++ fontResourceStr fontIds ++ strBytes " >>" ++
    (if pg.imageUsages.isEmpty then [] else strBytes " " ++ xobjStr pg.imageUsages)
  strBytes "<< /Type /Page /Parent " ++ pagesTok ++
    strBytes " 0 R /Resources << " ++ resource ++ strBytes " >> /Contents " ++
    decimal contentRef ++ strBytes " 0 R /MediaBox [0 0 " ++ fmt2 pg.width ++
    strBytes " " ++ fmt2 pg.height ++ strBytes "] " ++ annotsStr annotRefs ++
    strBytes " >>"

/-- The per-page loop of pdfgen.py:596-635: for each page, add one
annotation object per link, then the page object; returns the page object
numbers in order with the final store. -/
def buildPages (fontIds : List Nat) :
    List (RPage × Nat) → Store → List Nat × Store
  | [], st => ([], st)
  | (pg, cref) :: rest, st =>
    let ar := addObjects st (pg.links.map annotContent)
    let pr := addObject ar.2 (pageObjContent fontIds pg cref ar.1)
    let br := buildPages fontIds rest pr.2
    (pr.1 :: br.1, br.2)

/-- The page-tree object (pdfgen.py:637-641). -/
def pagesObjContent (pageIds : List Nat) : List Nat :=
  strBytes "<< /Type /Pages /Kids [" ++
    joinSp (pageIds.map fun n => decimal n ++ strBytes " 0 R") ++
    strBytes "] /Count " ++ decimal pageIds.length ++ strBytes " >>"

/-- The placeholder-substitution step applied to one object's payload
(pdfgen.py:644-648): `if b"\x7bpages\x7d" in data: data.replace(..., str(pages_obj))`. -/
def fixData (pagesObjNum : Nat) (data : List Nat) : List Nat :=
  if containsSub pagesTok data then replaceAll pagesTok (decimal pagesObjNum) data
  else data

/-- The catalog object (pdfgen.py:652-653). -/
def catalogContent (pagesObjNum : Nat) : List Nat :=
  strBytes "<< /Type /Catalog /Pages " ++ decimal pagesObjNum ++ strBytes " 0 R >>"

/-- One written object: `f"\x7bobj_number\x7d 0 obj\n"`, the payload, then
`b"\nendobj\n"` (pdfgen.py:663-665). -/
def objEntry (n : Nat) (content : List Nat) : List Nat :=
  decimal n ++ strBytes " 0 obj\n" ++ content ++ strBytes "\nendobj\n"

/-- The header line `b"%PDF-1.4\n"` (pdfgen.py:657). -/
def pdfHeader : List Nat := strBytes "%PDF-1.4\n"

/-- The object-writing loop (pdfgen.py:660-665): given the bytes written so
far, records `f.tell()` for each object before writing its entry; returns
the recorded offsets and the bytes after all objects. -/
def writeObjsLoop (out : List Nat) : Store → List Nat × List Nat
  | [] => ([], out)
  | o :: rest =>
    let r := writeObjsLoop (out ++ objEntry o.1 o.2) rest
    (out.length :: r.1, r.2)

/-- `f"\x7boffset:010d\x7d"`: the 10-digit zero-padded offset field. -/
def pad10 (n : Nat) : List Nat :=
  List.replicate (10 - (decimal n).length) 48 ++ decimal n

/-- The cross-reference section (pdfgen.py:668-672): header with the entry
count (`len(offsets)` where `offsets = [0] ++ tells`), the free-list
sentinel for object 0, then one fixed-width line per recorded offset. -/
def xrefSection (cnt : Nat) (offs : List Nat) : List Nat :=
  strBytes "xref\n0 " ++ decimal cnt ++ strBytes "\n" ++
    strBytes "0000000000 65535 f \n" ++
    (offs.map fun o => pad10 o ++ strBytes " 00000 n \n").flatten

/-- The trailer, startxref footer, and end marker (pdfgen.py:674-680). -/
def trailerBytes (cnt catalogId xrefOff : Nat) : List Nat :=
  strBytes "trailer\n<< /Size " ++ decimal cnt ++ strBytes " /Root " ++
    decimal catalogId ++ strBytes " 0 R >>\nstartxref\n" ++ decimal xrefOff ++
    strBytes "\n%%EOF\n"

/-- The write pass of `PDF.save` (pdfgen.py:656-680): header, objects (with
their offsets recorded), cross-reference section, trailer.  This function is
total: nothing in the write pass checks for unresolved placeholders. -/
def renderFile (objs : Store) (catalogId : Nat) : FileOut :=
  let r := writeObjsLoop pdfHeader objs
  let cnt := r.1.length + 1
  { objs := objs, offsets := r.1, xrefOffset := r.2.length,
    bytes := r.2 ++ xrefSection cnt r.1 ++ trailerBytes cnt catalogId r.2.length }

/-- Model of `PDF.save` (pdfgen.py:508-680) from the point where the
document is finalized: create the four font objects, resolve every page's
image usages (raising `UnresolvedResource` before any output exists), add
one content-stream object per page, then per page the annotation and page
objects, then the page tree, run the placeholder-substitution pass, add the
catalog, and write.  `show_page_numbers` only alters the per-page stream
bytes (already part of `SPage.streamBytes`).

`saveFinal` is the store construction from after the resolution loop up to
the catalog object (pdfgen.py:552-653): content-stream objects, annotation
and page objects, the page tree, the placeholder-substitution pass, the
catalog.  It returns the catalog's object number and the final store. -/
def saveFinal (fontIds : List Nat) (st : Store) (rpages : List RPage) :
    Nat × Store :=
  let cr := addObjects st (rpages.map fun pg => contentStreamObj pg.streamBytes)
  let br := buildPages fontIds (rpages.zip cr.1) cr.2
  let pr := addObject br.2 (pagesObjContent br.1)
  let fixed := pr.2.map fun o => (o.1, fixData pr.1 o.2)
  addObject fixed (catalogContent pr.1)

def savePDF (pdf : SPDF) : Except SaveError FileOut :=
  let fr := addObjects pdf.objects fontObjContents
  match resolvePages pdf.images pdf.pages with
  | .error e => .error e
  | .ok rpages =>
    let catr := saveFinal fr.1 fr.2 rpages
    .ok (renderFile catr.2 catr.1)

end Serializer

deriving instance DecidableEq for Except

/-! ## Lemmas about decimal rendering -/

theorem decimalAux_digits :
    ∀ fuel n, ∀ c ∈ decimalAux fuel n, 48 ≤ c ∧ c ≤ 57 := by
  intro fuel
  induction fuel with
  | zero => intro n c hc; cases n <;> simp [decimalAux] at hc
  | succ f ih =>
    intro n c hc
    cases n with
    | zero => simp [decimalAux] at hc
    | succ m =>
      simp only [decimalAux, List.mem_cons] at hc
      rcases hc with h | h
      · subst h
        have : (m + 1) % 10 < 10 := Nat.mod_lt _ (by omega)
        omega
      · exact ih _ c h

theorem decimal_digits (n : Nat) : ∀ c ∈ decimal n, 48 ≤ c ∧ c ≤ 57 := by
  intro c hc
  unfold decimal at hc
  split at hc
  · simp at hc; omega
  · rw [List.mem_reverse] at hc
    exact decimalAux_digits n n c hc

theorem decimal_ne_nil (n : Nat) : decimal n ≠ [] := by
  unfold decimal
  split
  · simp
  · rename_i h
    cases n with
    | zero => exact absurd rfl h
    | succ m => simp [decimalAux]

/-! ## Lemmas about `isPre`, `containsSub` and `replaceAll` -/

theorem isPre_mem : ∀ pat s, isPre pat s = true → ∀ c ∈ pat, c ∈ s := by
  intro pat
  induction pat with
  | nil => intro s _ c hc; simp at hc
  | cons a as ih =>
    intro s h c hc
    cases s with
    | nil => simp [isPre] at h
    | cons b bs =>
      simp only [isPre, Bool.and_eq_true, beq_iff_eq] at h
      rcases List.mem_cons.mp hc with h1 | h1
      · exact h1 ▸ h.1 ▸ List.mem_cons_self _ _
      · exact List.mem_cons_of_mem _ (ih bs h.2 c h1)

theorem isPre_head {a c : Nat} {as s : List Nat} :
    isPre (a :: as) (c :: s) = true → a = c ∧ isPre as s = true := by
  intro h
  simp only [isPre, Bool.and_eq_true, beq_iff_eq] at h
  exact h

theorem containsSub_mem : ∀ s pat, containsSub pat s = true → ∀ c ∈ pat, c ∈ s := by
  intro s
  induction s with
  | nil =>
    intro pat h c hc
    cases pat with
    | nil => simp at hc
    | cons a as => simp [containsSub, isPre] at h
  | cons x t ih =>
    intro pat h c hc
    simp only [containsSub, Bool.or_eq_true] at h
    rcases h with h | h
    · exact isPre_mem pat _ h c hc
    · exact List.mem_cons_of_mem _ (ih pat h c hc)

theorem containsSub_of_not_mem {pat s : List Nat} {c : Nat} (hc : c ∈ pat)
    (hs : c ∉ s) : containsSub pat s = false := by
  by_contra h
  exact hs (containsSub_mem s pat (by simpa using h) c hc)

theorem containsSub_append_left :
    ∀ (a b pat : List Nat), (∀ c ∈ a, c ∉ pat) →
      containsSub pat (a ++ b) = containsSub pat b := by
  intro a
  induction a with
  | nil => intro b pat _; rfl
  | cons x t ih =>
    intro b pat hx
    cases pat with
    | nil =>
      have hall : ∀ s : List Nat, containsSub [] s = true := by
        intro s; cases s <;> simp [containsSub, isPre]
      rw [hall, hall]
    | cons p ps =>
      have hxp : x ∉ p :: ps := hx x (List.mem_cons_self _ _)
      have hpre : isPre (p :: ps) (x :: (t ++ b)) = false := by
        by_contra hco
        have := (isPre_head ((Bool.not_eq_false _).mp hco)).1
        exact hxp (this ▸ List.mem_cons_self _ _)
      calc containsSub (p :: ps) (x :: t ++ b)
          = (isPre (p :: ps) (x :: (t ++ b)) || containsSub (p :: ps) (t ++ b)) := rfl
        _ = containsSub (p :: ps) (t ++ b) := by rw [hpre]; simp
        _ = containsSub (p :: ps) b :=
            ih b (p :: ps) (fun c hc => hx c (List.mem_cons_of_mem _ hc))

/-! ## Lemmas about `replaceAll` -/

theorem replACore_nil (pat rep : List Nat) (fuel : Nat) :
    replACore pat rep fuel [] = [] := by
  cases fuel <;> rfl

theorem replACore_pre_drop (pat rep : List Nat) (hrep : rep ≠ [])
    (hd : ∀ c ∈ rep, c ∉ pat) :
    ∀ fuel s k, s.length ≤ fuel → k < pat.length →
      isPre (List.drop k pat) (replACore pat rep fuel s) = true →
      isPre (List.drop k pat) s = true := by
  intro fuel
  induction fuel with
  | zero =>
    intro s k hs hk h
    have hsnil : s = [] := List.length_eq_zero.mp (Nat.le_zero.mp hs)
    subst hsnil
    rw [replACore_nil] at h
    rw [List.drop_eq_getElem_cons hk] at h
    simp [isPre] at h
  | succ f ih =>
    intro s k hs hk h
    cases s with
    | nil =>
      rw [replACore_nil] at h
      rw [List.drop_eq_getElem_cons hk] at h
      simp [isPre] at h
    | cons c t =>
      simp only [replACore] at h
      split at h
      · -- pat.length = 0, impossible since k < pat.length
        omega
      · split at h
        · -- the scan found an occurrence here: the output continues with
          -- rep, whose bytes are disjoint from pat, so h is absurd
          rw [List.drop_eq_getElem_cons hk] at h
          cases rep with
          | nil => exact absurd rfl hrep
          | cons r rs =>
            have hhead := (isPre_head h).1
            exact absurd (List.getElem_mem hk)
              (hhead ▸ hd r (List.mem_cons_self _ _))
        · -- the scan kept byte c
          rw [List.drop_eq_getElem_cons hk] at h ⊢
          obtain ⟨hck, hrest⟩ := isPre_head h
          by_cases hk1 : k + 1 < pat.length
          · have ht := ih t (k + 1) (by simpa using Nat.le_of_succ_le_succ hs) hk1
            rw [List.drop_eq_getElem_cons hk1] at ht hrest
            have := ht hrest
            simp only [isPre, Bool.and_eq_true, beq_iff_eq]
            exact ⟨hck, by rw [List.drop_eq_getElem_cons hk1]; exact this⟩
          · have hdrop : List.drop (k + 1) pat = [] := by
              have : pat.length ≤ k + 1 := by omega
              simp [List.drop_eq_nil_iff.mpr this]
            simp only [isPre, Bool.and_eq_true, beq_iff_eq]
            exact ⟨hck, by rw [hdrop]; rfl⟩

theorem replACore_no_tok (pat rep : List Nat) (hp : pat ≠ []) (hrep : rep ≠ [])
    (hd : ∀ c ∈ rep, c ∉ pat) :
    ∀ fuel s, s.length ≤ fuel →
      containsSub pat (replACore pat rep fuel s) = false := by
  intro fuel
  induction fuel with
  | zero =>
    intro s hs
    have hsnil : s = [] := List.length_eq_zero.mp (Nat.le_zero.mp hs)
    subst hsnil
    rw [replACore_nil]
    cases pat with
    | nil => exact absurd rfl hp
    | cons p ps => rfl
  | succ f ih =>
    intro s hs
    cases s with
    | nil =>
      rw [replACore_nil]
      cases pat with
      | nil => exact absurd rfl hp
      | cons p ps => rfl
    | cons c t =>
      simp only [replACore]
      split
      · exact absurd (List.length_eq_zero.mp (by assumption)) hp
      split
      · -- occurrence replaced by rep; rep's bytes are disjoint from pat
        rw [containsSub_append_left rep _ pat (fun c hc => hd c hc)]
        apply ih
        have hplen : 1 ≤ pat.length := by
          cases pat with
          | nil => exact absurd rfl hp
          | cons p ps => simp
        have hs' : t.length + 1 ≤ f + 1 := by simpa using hs
        simp only [List.length_drop, List.length_cons]
        omega
      · -- byte kept; any occurrence of pat at this position in the output
        -- would reflect back to an occurrence in the input, which the scan
        -- just ruled out
        rename_i hnz hnpre
        have htail := ih t (by simpa using Nat.le_of_succ_le_succ hs)
        have hhead : isPre pat (c :: replACore pat rep f t) = false := by
          by_contra hco
          have hco' := (Bool.not_eq_false _).mp hco
          cases pat with
          | nil => exact absurd rfl hp
          | cons p ps =>
            obtain ⟨hpc, hps⟩ := isPre_head hco'
            have hps' : isPre ps t = true := by
              by_cases hlen : 1 < (p :: ps).length
              · have := replACore_pre_drop (p :: ps) rep hrep hd f t 1
                  (by simpa using Nat.le_of_succ_le_succ hs) hlen
                simpa using this (by simpa using hps)
              · have : ps = [] := by
                  cases ps with
                  | nil => rfl
                  | cons q qs => simp at hlen
                subst this
                rfl
            exact hnpre (by simp [isPre, hpc, hps'])
        calc containsSub pat (c :: replACore pat rep f t)
            = (isPre pat (c :: replACore pat rep f t) ||
                containsSub pat (replACore pat rep f t)) := rfl
          _ = false := by rw [hhead, htail]; rfl

theorem replaceAll_no_tok (pat rep s : List Nat) (hp : pat ≠ []) (hrep : rep ≠ [])
    (hd : ∀ c ∈ rep, c ∉ pat) :
    containsSub pat (replaceAll pat rep s) = false := by
  unfold replaceAll
  rw [if_neg (by simpa using hp)]
  exact replACore_no_tok pat rep hp hrep hd s.length s (Nat.le_refl _)


/-! ## Object-store numbering -/

/-- The store invariant maintained by `add_object`: the i-th stored object
carries object number `i + 1`. -/
def Numbered (st : Store) : Prop :=
  st.map Prod.fst = List.range' 1 st.length

theorem addObject_len (st : Store) (c : List Nat) :
    (addObject st c).2.length = st.length + 1 := by
  simp [addObject]

theorem addObject_numbered {st : Store} (c : List Nat) (h : Numbered st) :
    Numbered (addObject st c).2 := by
  unfold Numbered at h ⊢
  simp only [addObject, List.map_append, List.length_append, List.map_cons,
    List.map_nil, List.length_cons, List.length_nil]
  rw [h, List.range'_1_concat]
  simp [Nat.add_comm]

theorem addObjects_len (st : Store) (cs : List (List Nat)) :
    (addObjects st cs).2.length = st.length + cs.length := by
  induction cs generalizing st with
  | nil => simp [addObjects]
  | cons c cs ih =>
    simp only [addObjects, List.length_cons]
    rw [ih, addObject_len]
    omega

theorem addObjects_numbered {st : Store} (cs : List (List Nat))
    (h : Numbered st) : Numbered (addObjects st cs).2 := by
  induction cs generalizing st with
  | nil => exact h
  | cons c cs ih => exact ih (addObject_numbered c h)

theorem addObjects_fst (st : Store) (cs : List (List Nat)) :
    (addObjects st cs).1 = List.range' (st.length + 1) cs.length := by
  induction cs generalizing st with
  | nil => simp [addObjects]
  | cons c cs ih =>
    simp only [addObjects, List.length_cons]
    rw [List.range'_succ]
    simp only [addObject, ih, addObject_len]
    simp [Nat.add_comm, Nat.add_assoc, Nat.add_left_comm]

theorem buildPages_len (fontIds : List Nat) (ps : List (RPage × Nat)) :
    ∀ st : Store, st.length ≤ (buildPages fontIds ps st).2.length := by
  induction ps with
  | nil => intro st; simp [buildPages]
  | cons p rest ih =>
    intro st
    simp only [buildPages]
    calc st.length
        ≤ (addObjects st (p.1.links.map annotContent)).2.length := by
          rw [addObjects_len]; omega
      _ ≤ _ := by
          refine Nat.le_trans ?_ (ih _)
          rw [addObject_len]
          omega

theorem buildPages_numbered (fontIds : List Nat) (ps : List (RPage × Nat)) :
    ∀ st : Store, Numbered st → Numbered (buildPages fontIds ps st).2 := by
  induction ps with
  | nil => intro st h; exact h
  | cons p rest ih =>
    intro st h
    exact ih _ (addObject_numbered _ (addObjects_numbered _ h))

theorem map_fst_fix (st : Store) (pid : Nat) :
    (st.map fun o => (o.1, fixData pid o.2)).map Prod.fst = st.map Prod.fst := by
  induction st with
  | nil => rfl
  | cons o rest ih => simp [ih]

theorem fix_numbered {st : Store} (pid : Nat) (h : Numbered st) :
    Numbered (st.map fun o => (o.1, fixData pid o.2)) := by
  unfold Numbered at h ⊢
  rw [map_fst_fix, List.length_map]
  exact h

/-! ## The write loop -/

theorem writeObjsLoop_offsets_len (objs : Store) :
    ∀ out : List Nat, (writeObjsLoop out objs).1.length = objs.length := by
  induction objs with
  | nil => intro out; rfl
  | cons o rest ih => intro out; simp [writeObjsLoop, ih]

theorem writeObjsLoop_snd (objs : Store) :
    ∀ out : List Nat, (writeObjsLoop out objs).2 =
      out ++ (objs.map fun o => objEntry o.1 o.2).flatten := by
  induction objs with
  | nil => intro out; simp [writeObjsLoop]
  | cons o rest ih =>
    intro out
    simp only [writeObjsLoop, List.map_cons, List.flatten_cons]
    rw [ih, List.append_assoc]

theorem writeObjsLoop_offset_le (objs : Store) :
    ∀ (out : List Nat) (i : Nat),
      (writeObjsLoop out objs).1.getD i 0 ≤ (writeObjsLoop out objs).2.length := by
  induction objs with
  | nil => intro out i; simp [writeObjsLoop]
  | cons o rest ih =>
    intro out i
    cases i with
    | zero =>
      simp only [writeObjsLoop, List.getD_cons_zero]
      rw [writeObjsLoop_snd]
      simp only [List.length_append]
      have : out.length ≤ (out ++ objEntry o.1 o.2).length := by
        simp [List.length_append]
      omega
    | succ i =>
      simp only [writeObjsLoop, List.getD_cons_succ]
      exact ih _ i

theorem writeObjsLoop_drop (objs : Store) :
    ∀ (out : List Nat) (i : Nat), i < objs.length →
      (writeObjsLoop out objs).2.drop ((writeObjsLoop out objs).1.getD i 0) =
        ((objs.drop i).map fun o => objEntry o.1 o.2).flatten := by
  induction objs with
  | nil => intro out i hi; simp at hi
  | cons o rest ih =>
    intro out i hi
    cases i with
    | zero =>
      simp only [writeObjsLoop, List.getD_cons_zero, List.drop_zero]
      rw [writeObjsLoop_snd, List.append_assoc, List.drop_left]
      simp
    | succ i =>
      simp only [writeObjsLoop, List.getD_cons_succ, List.drop_succ_cons]
      exact ih _ i (by simpa using hi)

/-! ## Resolution-loop lemmas -/

theorem resolveUsages_ok_all (images : List (List Nat × Nat)) :
    ∀ (us : List (List Nat × Option Nat)) (rs : List (List Nat × Nat)),
      resolveUsages images us = .ok rs →
      ∀ u ∈ us, lookupImage images u.1 ≠ none := by
  intro us
  induction us with
  | nil => intro rs _ u hu; simp at hu
  | cons u0 rest ih =>
    intro rs h u hu
    simp only [resolveUsages] at h
    rcases List.mem_cons.mp hu with h1 | h1
    · subst h1
      intro hnone
      rw [hnone] at h
      exact Except.noConfusion h
    · cases hl : lookupImage images u0.1 with
      | none => rw [hl] at h; exact Except.noConfusion h
      | some ob =>
        rw [hl] at h
        cases hr : resolveUsages images rest with
        | error e => rw [hr] at h; exact Except.noConfusion h
        | ok rs2 => exact ih rs2 hr u h1

theorem resolveUsages_error (images : List (List Nat × Nat)) :
    ∀ us : List (List Nat × Option Nat),
      (∃ u ∈ us, lookupImage images u.1 = none) →
      ∃ nm, resolveUsages images us = .error (.unresolvedResource nm) := by
  intro us
  induction us with
  | nil => intro h; obtain ⟨u, hu, _⟩ := h; simp at hu
  | cons u0 rest ih =>
    intro h
    cases hl : lookupImage images u0.1 with
    | none => exact ⟨u0.1, by simp [resolveUsages, hl]⟩
    | some ob =>
      obtain ⟨u, hu, hun⟩ := h
      rcases List.mem_cons.mp hu with h1 | h1
      · subst h1; rw [hl] at hun; exact Option.noConfusion hun
      · obtain ⟨nm, hnm⟩ := ih ⟨u, h1, hun⟩
        exact ⟨nm, by simp [resolveUsages, hl, hnm]⟩

theorem resolvePages_error (images : List (List Nat × Nat)) :
    ∀ pages : List SPage,
      (∃ pg ∈ pages, ∃ u ∈ pg.imageUsages, lookupImage images u.1 = none) →
      ∃ nm, resolvePages images pages = .error (.unresolvedResource nm) := by
  intro pages
  induction pages with
  | nil => intro h; obtain ⟨pg, hpg, _⟩ := h; simp at hpg
  | cons pg0 rest ih =>
    intro h
    cases hu : resolveUsages images pg0.imageUsages with
    | error e =>
      cases e with
      | unresolvedResource nm => exact ⟨nm, by simp [resolvePages, hu]⟩
    | ok us =>
      obtain ⟨pg, hpg, u, hmem, hun⟩ := h
      rcases List.mem_cons.mp hpg with h1 | h1
      · subst h1
        exact absurd hun (resolveUsages_ok_all images _ us hu u hmem)
      · obtain ⟨nm, hnm⟩ := ih ⟨pg, h1, u, hmem, hun⟩
        exact ⟨nm, by simp [resolvePages, hu, hnm]⟩

/-! ## Structure of the final store built by `save` -/

theorem saveFinal_numbered (fontIds : List Nat) (st : Store)
    (rpages : List RPage) (h : Numbered st) :
    Numbered (saveFinal fontIds st rpages).2 := by
  unfold saveFinal
  exact addObject_numbered _ (fix_numbered _
    (addObject_numbered _ (buildPages_numbered _ _ _ (addObjects_numbered _ h))))

theorem pagesTok_ne_nil : pagesTok ≠ [] := by decide

theorem decimal_not_in_tok (n : Nat) : ∀ c ∈ decimal n, c ∉ pagesTok := by
  intro c hc hmem
  have hd := decimal_digits n c hc
  have : c = 123 ∨ c = 112 ∨ c = 97 ∨ c = 103 ∨ c = 101 ∨ c = 115 ∨ c = 125 := by
    simpa [pagesTok] using hmem
  omega

theorem fixData_no_tok (pid : Nat) (d : List Nat) :
    containsSub pagesTok (fixData pid d) = false := by
  unfold fixData
  split
  · exact replaceAll_no_tok pagesTok (decimal pid) d pagesTok_ne_nil
      (decimal_ne_nil pid) (decimal_not_in_tok pid)
  · rename_i hfalse
    simpa using hfalse

theorem catalog_no_tok (pid : Nat) :
    containsSub pagesTok (catalogContent pid) = false := by
  apply containsSub_of_not_mem (c := 123) (by decide)
  intro hmem
  unfold catalogContent at hmem
  rcases List.mem_append.mp hmem with h1 | h1
  · rcases List.mem_append.mp h1 with h2 | h2
    · revert h2; decide
    · have := decimal_digits pid 123 h2; omega
  · revert h1; decide

theorem saveFinal_no_tok (fontIds : List Nat) (st : Store)
    (rpages : List RPage) :
    ∀ p ∈ (saveFinal fontIds st rpages).2, containsSub pagesTok p.2 = false := by
  intro p hp
  unfold saveFinal at hp
  simp only [addObject] at hp
  rcases List.mem_append.mp hp with h1 | h1
  · obtain ⟨o, _, rfl⟩ := List.mem_map.mp h1
    exact fixData_no_tok _ o.2
  · have hps := List.mem_singleton.mp h1
    rw [hps]
    exact catalog_no_tok _

theorem Numbered.fst_getD {st : Store} (h : Numbered st) {i : Nat}
    (hi : i < st.length) : (st.getD i (0, [])).1 = i + 1 := by
  have hq : (st.map Prod.fst)[i]? = (List.range' 1 st.length)[i]? := by
    unfold Numbered at h
    rw [h]
  rw [List.getElem?_map, List.getElem?_eq_getElem hi,
    List.getElem?_range' 1 1 (by simpa using hi)] at hq
  have hv : st[i].1 = 1 + 1 * i := by
    simpa using hq
  have hg : st.getD i (0, []) = st[i] := by
    simp [List.getD_eq_getElem?_getD, List.getElem?_eq_getElem hi]
  rw [hg, hv]
  omega

theorem savePDF_ok_elim {pdf : SPDF} {out : FileOut}
    (h : savePDF pdf = .ok out) :
    ∃ rpages, resolvePages pdf.images pdf.pages = .ok rpages ∧
      out = renderFile
        (saveFinal (addObjects pdf.objects fontObjContents).1
          (addObjects pdf.objects fontObjContents).2 rpages).2
        (saveFinal (addObjects pdf.objects fontObjContents).1
          (addObjects pdf.objects fontObjContents).2 rpages).1 := by
  unfold savePDF at h
  cases hres : resolvePages pdf.images pdf.pages with
  | error e => rw [hres] at h; exact Except.noConfusion h
  | ok rpages =>
    rw [hres] at h
    injection h with h2
    exact ⟨rpages, rfl, h2.symm⟩

theorem renderFile_objs (objs : Store) (catalogId : Nat) :
    (renderFile objs catalogId).objs = objs := rfl

theorem renderFile_offsets (objs : Store) (catalogId : Nat) :
    (renderFile objs catalogId).offsets = (writeObjsLoop pdfHeader objs).1 := rfl

theorem renderFile_bytes (objs : Store) (catalogId : Nat) :
    (renderFile objs catalogId).bytes =
      (writeObjsLoop pdfHeader objs).2 ++
        xrefSection ((writeObjsLoop pdfHeader objs).1.length + 1)
          (writeObjsLoop pdfHeader objs).1 ++
        trailerBytes ((writeObjsLoop pdfHeader objs).1.length + 1) catalogId
          (writeObjsLoop pdfHeader objs).2.length := rfl

/-! ## Concrete documents used by the witnesses -/

/-- A small well-formed document: one page, no images, no links. -/
def pdf0 : SPDF :=
  { pages := [⟨10, 20, strBytes "BT ET", [], []⟩], objects := [], images := [] }

/-- The file `savePDF` produces for `pdf0`. -/
def out0 : FileOut :=
  match savePDF pdf0 with
  | .ok o => o
  | .error _ => ⟨[], [], 0, []⟩

/-- A document whose only page placed an image under the name `"X"` (byte
88) that was never returned by `embed_image`. -/
def pdfBad : SPDF :=
  { pages := [⟨10, 10, [], [([88], none)], []⟩], objects := [], images := [] }

/-! ## Claims -/

/-- **C1.**  For every document successfully finalized and written by
`save` — `Numbered pdf.objects` says the prior store was built by
`add_object`, which assigns `len+1` to each object — the write pass records
exactly one offset per object; the i-th object (0-based) carries identity
i+1 (identity order); and each recorded offset, which `renderFile` renders
verbatim into the cross-reference section, is the exact byte position in
the final output at which that object's identity header `"N 0 obj"`
begins. -/
theorem save_xref_offsets_match_headers (pdf : SPDF) (out : FileOut)
    (hN : Numbered pdf.objects) (h : savePDF pdf = .ok out) :
    out.offsets.length = out.objs.length ∧
    (∀ i, i < out.objs.length → (out.objs.getD i (0, [])).1 = i + 1) ∧
    ∀ i, i < out.objs.length →
      (decimal (i + 1) ++ strBytes " 0 obj\n") <+:
        out.bytes.drop (out.offsets.getD i 0) := by
  obtain ⟨rpages, hres, rfl⟩ := savePDF_ok_elim h
  have hnum : Numbered (saveFinal (addObjects pdf.objects fontObjContents).1
      (addObjects pdf.objects fontObjContents).2 rpages).2 :=
    saveFinal_numbered _ _ _ (addObjects_numbered _ hN)
  set objs := (saveFinal (addObjects pdf.objects fontObjContents).1
    (addObjects pdf.objects fontObjContents).2 rpages).2 with hobjs
  set cat := (saveFinal (addObjects pdf.objects fontObjContents).1
    (addObjects pdf.objects fontObjContents).2 rpages).1 with hcat
  refine ⟨?_, ?_, ?_⟩
  · rw [renderFile_offsets, renderFile_objs, writeObjsLoop_offsets_len]
  · intro i hi
    rw [renderFile_objs] at hi ⊢
    exact hnum.fst_getD hi
  · intro i hi
    rw [renderFile_objs] at hi
    rw [renderFile_offsets, renderFile_bytes]
    have hk : (writeObjsLoop pdfHeader objs).1.getD i 0 ≤
        (writeObjsLoop pdfHeader objs).2.length :=
      writeObjsLoop_offset_le objs pdfHeader i
    rw [List.append_assoc, List.drop_append_of_le_length hk]
    rw [writeObjsLoop_drop objs pdfHeader i hi]
    rw [List.drop_eq_getElem_cons hi, List.map_cons, List.flatten_cons]
    have hfst : objs[i].1 = i + 1 := by
      have := hnum.fst_getD hi
      rwa [List.getD_eq_getElem?_getD, List.getElem?_eq_getElem hi] at this
    have hsplit : objEntry (i + 1) objs[i].2 =
        (decimal (i + 1) ++ strBytes " 0 obj\n") ++
          (objs[i].2 ++ strBytes "\nendobj\n") := by
      simp [objEntry, List.append_assoc]
    rw [hfst, hsplit]
    rw [List.append_assoc (decimal (i + 1) ++ strBytes " 0 obj\n"),
      List.append_assoc (decimal (i + 1) ++ strBytes " 0 obj\n")]
    exact List.prefix_append _ _

set_option maxRecDepth 200000 in
/-- Witness for C1: in the concrete document `pdf0`, the first recorded
cross-reference offset points at the header `"1 0 obj"`. -/
theorem save_xref_offsets_match_headers_witness :
    (decimal 1 ++ strBytes " 0 obj\n") <+:
      out0.bytes.drop (out0.offsets.getD 0 0) := by
  have h := save_xref_offsets_match_headers pdf0 out0 (by unfold Numbered; rfl)
    (by with_unfolding_all decide)
  exact h.2.2 0 (by with_unfolding_all decide)

/-- **C2 (code bug).**  A content stream containing the literal placeholder
token (as produced e.g. by `add_text` on the text `"\x7bpages\x7d"`) is
declared with `/Length 18`, but the placeholder-substitution pass of
`PDF.save` rewrites the token inside the stream payload, leaving only 12
bytes between the stream markers while the declared length still reads 18. -/
theorem content_length_corrupted_by_substitution :
    contentStreamObj (strBytes "BT (" ++ pagesTok ++ strBytes ") Tj ET") =
      strBytes "<< /Length 18 >>\nstream\n" ++
        (strBytes "BT (" ++ pagesTok ++ strBytes ") Tj ET") ++
        strBytes "\nendstream" ∧
    fixData 6 (contentStreamObj (strBytes "BT (" ++ pagesTok ++ strBytes ") Tj ET")) =
      strBytes "<< /Length 18 >>\nstream\n" ++ strBytes "BT (6) Tj ET" ++
        strBytes "\nendstream" ∧
    (strBytes "BT (6) Tj ET").length = 12 := by decide

/-- **C3.**  If any page of the document placed an image under a name that
was never returned by `embed_image` (no entry in the registry), then
`savePDF` fails with `UnresolvedResource`.  In the model the error result
carries no output bytes at all; in the source the resolution loop
(pdfgen.py:545-550) runs before `open(filename, "wb")` (pdfgen.py:656), so
the output file is never opened or created. -/
theorem save_unresolved_image_errors (pdf : SPDF)
    (h : ∃ pg ∈ pdf.pages, ∃ u ∈ pg.imageUsages,
      lookupImage pdf.images u.1 = none) :
    ∃ nm, savePDF pdf = .error (SaveError.unresolvedResource nm) := by
  obtain ⟨nm, hnm⟩ := resolvePages_error pdf.images pdf.pages h
  refine ⟨nm, ?_⟩
  unfold savePDF
  rw [hnm]

/-- Witness for C3: the concrete document `pdfBad` uses the unregistered
image name `"X"` and `savePDF` fails with `UnresolvedResource`. -/
theorem save_unresolved_image_errors_witness :
    ∃ nm, savePDF pdfBad = .error (SaveError.unresolvedResource nm) :=
  save_unresolved_image_errors pdfBad
    ⟨⟨10, 10, [], [([88], none)], []⟩, by decide, ([88], none), by decide, by decide⟩

/-- **C4 counterexample.**  The claim says a serialization reaching the
write pass with an unresolved placeholder fails with `DanglingReference`
rather than writing the placeholder.  The write pass of `PDF.save`
(pdfgen.py:656-680, modelled by the total function `renderFile`) performs
no such check: for a store whose single object still holds the raw token,
the produced file bytes contain the token verbatim, and no error of any
kind is raised (`renderFile` does not even have an error result type). -/
theorem dangling_placeholder_written_verbatim :
    containsSub pagesTok (renderFile [(1, pagesTok)] 1).bytes = true := by decide

/-- **C4 (amended).**  The code has no `DanglingReference` failure.
Instead, the single substitution pass of `save` (pdfgen.py:644-648)
replaces every occurrence of the placeholder token present at that time,
and the only object added afterwards (the catalog) never contains it, so
in every successful `save` no object reaching the write pass contains an
unresolved placeholder. -/
theorem save_placeholders_all_resolved (pdf : SPDF) (out : FileOut)
    (h : savePDF pdf = .ok out) :
    ∀ p ∈ out.objs, containsSub pagesTok p.2 = false := by
  obtain ⟨rpages, hres, rfl⟩ := savePDF_ok_elim h
  intro p hp
  rw [renderFile_objs] at hp
  exact saveFinal_no_tok _ _ _ p hp

set_option maxRecDepth 200000 in
/-- Witness for C4 (amended): in the concrete saved document `out0`, the
first written object is free of the placeholder token. -/
theorem save_placeholders_all_resolved_witness :
    containsSub pagesTok (out0.objs.getD 0 (0, [])).2 = false := by
  have h := save_placeholders_all_resolved pdf0 out0 (by with_unfolding_all decide)
  exact h _ (by with_unfolding_all decide)

/-- **C5.**  Every `add_object` call returns the current store length plus
one, and any sequence of `add_object` calls starting from a store of `k`
objects returns exactly the identities `k+1, k+2, ...` in call order
(instantiating the store with the empty one a fresh `PDF` starts with:
`1, 2, 3, ...` — strictly increasing, 1-based, no gaps, no reuse). -/
theorem addObject_identities_sequential :
    (∀ (st : Store) (c : List Nat), (addObject st c).1 = st.length + 1) ∧
    ∀ (st : Store) (cs : List (List Nat)),
      (addObjects st cs).1 = List.range' (st.length + 1) cs.length :=
  ⟨fun _ _ => rfl, addObjects_fst⟩

/-! ## Lemmas about `splitWs`, `strip` and `wrapLoop` -/

theorem splitWsAux_words :
    ∀ (s cur : List Char), (∀ c ∈ cur, isSpc c = false) →
      ∀ w ∈ splitWsAux cur s, w ≠ [] ∧ ∀ c ∈ w, isSpc c = false := by
  intro s
  induction s with
  | nil =>
    intro cur hcur w hw
    simp only [splitWsAux] at hw
    split at hw
    · simp at hw
    · rename_i hne
      rw [List.mem_singleton] at hw
      subst hw
      refine ⟨?_, fun c hc => hcur c (List.mem_reverse.mp hc)⟩
      intro hnil
      exact hne (by simp [List.reverse_eq_nil_iff.mp hnil])
  | cons c rest ih =>
    intro cur hcur w hw
    simp only [splitWsAux] at hw
    split at hw
    · rcases List.mem_append.mp hw with h1 | h1
      · split at h1
        · simp at h1
        · rename_i hne
          rw [List.mem_singleton] at h1
          subst h1
          refine ⟨?_, fun d hd => hcur d (List.mem_reverse.mp hd)⟩
          intro hnil
          exact hne (by simp [List.reverse_eq_nil_iff.mp hnil])
      · exact ih [] (by simp) w h1
    · rename_i hcns
      refine ih (c :: cur) ?_ w hw
      intro d hd
      rcases List.mem_cons.mp hd with rfl | hd2
      · simpa using hcns
      · exact hcur d hd2

theorem splitWs_words (text : List Char) :
    ∀ w ∈ splitWs text, w ≠ [] ∧ ∀ c ∈ w, isSpc c = false :=
  fun w hw => splitWsAux_words text [] (by simp) w hw

theorem dropWhile_all_neg {p : Char → Bool} :
    ∀ {l : List Char}, (∀ c ∈ l, p c = false) → l.dropWhile p = l := by
  intro l h
  cases l with
  | nil => rfl
  | cons a t =>
    rw [List.dropWhile_cons_of_neg (by simp [h a (List.mem_cons_self _ _)])]

theorem strip_all_neg {w : List Char} (hw : ∀ c ∈ w, isSpc c = false) :
    strip w = w := by
  unfold strip
  rw [dropWhile_all_neg hw,
    dropWhile_all_neg (fun c hc => hw c (List.mem_reverse.mp hc)),
    List.reverse_reverse]

theorem strip_cons_space (w : List Char) : strip (' ' :: w) = strip w := by
  unfold strip
  rw [List.dropWhile_cons_of_pos (by decide)]

theorem strip_sandwich (cur w2 : List Char) (hc : cur ≠ [])
    (hcs : ∀ c ∈ cur, isSpc c = false) (hw : w2 ≠ [])
    (hws : ∀ c ∈ w2, isSpc c = false) :
    strip (cur ++ ' ' :: w2) = cur ++ ' ' :: w2 := by
  unfold strip
  have h1 : (cur ++ ' ' :: w2).dropWhile isSpc = cur ++ ' ' :: w2 := by
    cases cur with
    | nil => exact absurd rfl hc
    | cons a t =>
      rw [List.cons_append, List.dropWhile_cons_of_neg
        (by simp [hcs a (List.mem_cons_self _ _)])]
  rw [h1]
  have hhead : ∃ b u, (cur ++ ' ' :: w2).reverse = b :: u ∧ isSpc b = false := by
    cases hw2r : w2.reverse with
    | nil => exact absurd (List.reverse_eq_nil_iff.mp hw2r) hw
    | cons b u =>
      refine ⟨b, u ++ (' ' :: cur.reverse), ?_, ?_⟩
      · rw [List.reverse_append, List.reverse_cons, hw2r]
        simp [List.append_assoc]
      · refine hws b ?_
        rw [← List.mem_reverse, hw2r]
        exact List.mem_cons_self _ _
  obtain ⟨b, u, hbu, hbs⟩ := hhead
  rw [hbu, List.dropWhile_cons_of_neg (by simp [hbs]), ← hbu,
    List.reverse_reverse]

theorem strip_ne_nil {s : List Char} (h : ∃ c ∈ s, isSpc c = false) :
    strip s ≠ [] := by
  obtain ⟨c, hc, hcs⟩ := h
  unfold strip
  intro hnil
  rw [List.reverse_eq_nil_iff, List.dropWhile_eq_nil_iff] at hnil
  have hsplit := List.takeWhile_append_dropWhile (p := isSpc) (l := s)
  have hc2 : c ∈ s.takeWhile isSpc ++ s.dropWhile isSpc := by
    rw [hsplit]; exact hc
  rcases List.mem_append.mp hc2 with h1 | h1
  · have := List.mem_takeWhile_imp h1
    simp [hcs] at this
  · have := hnil c (List.mem_reverse.mpr h1)
    simp [hcs] at this

theorem maxCharsOf_nonneg {mw fs : ℚ} (hmw : 0 < mw) (hfs : 0 < fs) :
    0 ≤ maxCharsOf mw fs := by
  unfold maxCharsOf pyInt
  have hq : 0 < mw / (1/2 * fs) := div_pos hmw (by positivity)
  refine Int.tdiv_nonneg (le_of_lt (Rat.num_pos.mpr hq)) ?_
  exact_mod_cast Nat.zero_le _

theorem wrapLoop_budget {mc : Int} (hmc : 0 ≤ mc) (W : List (List Char)) :
    ∀ (ws : List (List Char)) (cur : List Char),
      (cur = [] ∨ (cur.length : Int) ≤ mc ∨ cur ∈ W) →
      (∀ w ∈ ws, w ∈ W) →
      ∀ l ∈ wrapLoop mc ws cur, (l.length : Int) ≤ mc ∨ l ∈ W := by
  intro ws
  induction ws with
  | nil =>
    intro cur hcur _ l hl
    simp only [wrapLoop] at hl
    split at hl
    · simp at hl
    · rw [List.mem_singleton] at hl
      subst hl
      rcases hcur with rfl | h | h
      · exact Or.inl (by simpa using hmc)
      · exact Or.inl h
      · exact Or.inr h
  | cons w ws ih =>
    intro cur hcur hws l hl
    simp only [wrapLoop] at hl
    split at hl
    · rename_i htest
      exact ih _ (Or.inr (Or.inl htest))
        (fun x hx => hws x (List.mem_cons_of_mem _ hx)) l hl
    · rcases List.mem_cons.mp hl with rfl | hl2
      · rcases hcur with rfl | h | h
        · exact Or.inl (by simpa using hmc)
        · exact Or.inl h
        · exact Or.inr h
      · exact ih _ (Or.inr (Or.inr (hws w (List.mem_cons_self _ _))))
          (fun x hx => hws x (List.mem_cons_of_mem _ hx)) l hl2

theorem wrapLoop_ne_nil (mc : Int) :
    ∀ (ws : List (List Char)) (cur : List Char), ws ≠ [] →
      (∀ w ∈ ws, w ≠ [] ∧ ∀ c ∈ w, isSpc c = false) →
      wrapLoop mc ws cur ≠ [] := by
  intro ws
  induction ws with
  | nil => intro cur h _; exact absurd rfl h
  | cons w ws ih =>
    intro cur _ hws
    simp only [wrapLoop]
    split
    · cases ws with
      | nil =>
        simp only [wrapLoop]
        split
        · rename_i hnil
          refine absurd hnil (strip_ne_nil ?_)
          obtain ⟨hne, hsf⟩ := hws w (List.mem_cons_self _ _)
          cases w with
          | nil => exact absurd rfl hne
          | cons a t => exact ⟨a, by simp, hsf a (List.mem_cons_self _ _)⟩
        · simp
      | cons w2 ws2 =>
        exact ih _ (by simp) (fun x hx => hws x (List.mem_cons_of_mem _ hx))
    · simp

theorem wrapLoop_mem_long (mc : Int) (ws : List (List Char)) (cur : List Char)
    (hlong : mc < (cur.length : Int)) (hne : cur ≠ [])
    (hsf : ∀ c ∈ cur, isSpc c = false)
    (hws : ∀ x ∈ ws, x ≠ [] ∧ ∀ c ∈ x, isSpc c = false) :
    cur ∈ wrapLoop mc ws cur := by
  cases ws with
  | nil =>
    simp only [wrapLoop]
    rw [if_neg hne]
    exact List.mem_singleton.mpr rfl
  | cons w2 ws2 =>
    simp only [wrapLoop]
    obtain ⟨hw2ne, hw2sf⟩ := hws w2 (List.mem_cons_self _ _)
    have hst : strip (cur ++ ' ' :: w2) = cur ++ ' ' :: w2 :=
      strip_sandwich cur w2 hne hsf hw2ne hw2sf
    rw [hst, if_neg (by
      simp only [List.length_append, List.length_cons]
      push_cast
      omega)]
    exact List.mem_cons_self _ _

/-! ## Claims about `wrap_text` -/

/-- **C6.**  For every text and positive `max_width` and `font_size`, every
line produced by `wrap_text` either fits the computed character budget
`int(max_width / (0.5 * font_size))`, or is a single whitespace-delimited
word of the input whose length alone exceeds the budget (occupying its own
line unsplit). -/
theorem wrapText_budget (text : List Char) (mw fs : ℚ)
    (hmw : 0 < mw) (hfs : 0 < fs) :
    ∀ l ∈ wrapText text mw fs,
      (l.length : Int) ≤ maxCharsOf mw fs ∨
        (l ∈ splitWs text ∧ maxCharsOf mw fs < (l.length : Int)) := by
  intro l hl
  have h := wrapLoop_budget (maxCharsOf_nonneg hmw hfs) (splitWs text)
    (splitWs text) [] (Or.inl rfl) (fun _ hw => hw) l hl
  rcases h with h | h
  · exact Or.inl h
  · by_cases hle : (l.length : Int) ≤ maxCharsOf mw fs
    · exact Or.inl hle
    · exact Or.inr ⟨h, not_le.mp hle⟩

set_option maxRecDepth 8000 in
/-- Witness for C6: wrapping `"aaaa bb"` at budget 4 produces the line
`"aaaa"`, which fits the budget. -/
theorem wrapText_budget_witness :
    (0 : ℚ) < 4 ∧ (0 : ℚ) < 2 ∧
      "aaaa".toList ∈ wrapText "aaaa bb".toList 4 2 ∧
      (("aaaa".toList.length : Int) ≤ maxCharsOf 4 2 ∨
        ("aaaa".toList ∈ splitWs "aaaa bb".toList ∧
          maxCharsOf 4 2 < ("aaaa".toList.length : Int))) := by
  refine ⟨by norm_num, by norm_num, by with_unfolding_all decide, ?_⟩
  exact wrapText_budget "aaaa bb".toList 4 2 (by norm_num) (by norm_num) _
    (by with_unfolding_all decide)

/-- **C7 counterexample.**  The claim promises at least one line for every
non-empty input text, but the whitespace-only input `" "` is a non-empty
string for which `wrap_text` returns no lines at all (`text.split()` is
empty, so the loop never runs and `current_line` stays empty). -/
theorem wrapText_whitespace_empty :
    wrapText [' '] 100 12 = [] ∧ ([' '] : List Char) ≠ [] := by
  constructor
  · decide
  · decide

/-- **C7 (amended).**  For every input text containing at least one
non-whitespace character (equivalently, whose whitespace-split word list is
non-empty) and positive `max_width` and `font_size`, `wrap_text` returns at
least one line — in particular a single word longer than the character
budget still yields a line (C10 shows which ones). -/
theorem wrapText_nonblank_ne_nil (text : List Char) (mw fs : ℚ)
    (hmw : 0 < mw) (hfs : 0 < fs) (h : splitWs text ≠ []) :
    wrapText text mw fs ≠ [] := by
  unfold wrapText
  exact wrapLoop_ne_nil _ _ [] h (fun w hw => splitWs_words text w hw)

/-- Witness for C7 (amended): `"hello"` wraps to at least one line. -/
theorem wrapText_nonblank_ne_nil_witness :
    wrapText "hello".toList 100 12 ≠ [] :=
  wrapText_nonblank_ne_nil "hello".toList 100 12 (by norm_num) (by norm_num)
    (by decide)

/-- **C10.**  Whenever the first whitespace-delimited word of the text is
already longer than the computed character budget, the returned list begins
with an empty-string line, and the word itself appears on a later line. -/
theorem wrapText_long_first_word (text : List Char) (mw fs : ℚ)
    (w : List Char) (ws : List (List Char))
    (hsplit : splitWs text = w :: ws)
    (hlong : maxCharsOf mw fs < (w.length : Int)) :
    ∃ rest, wrapText text mw fs = [] :: rest ∧ w ∈ rest := by
  have hword := splitWs_words text w (by rw [hsplit]; exact List.mem_cons_self _ _)
  have hwords : ∀ x ∈ ws, x ≠ [] ∧ ∀ c ∈ x, isSpc c = false := fun x hx =>
    splitWs_words text x (by rw [hsplit]; exact List.mem_cons_of_mem _ hx)
  unfold wrapText
  rw [hsplit]
  simp only [wrapLoop]
  have htest : strip ([] ++ ' ' :: w) = w := by
    rw [List.nil_append, strip_cons_space, strip_all_neg hword.2]
  rw [htest, if_neg (not_le.mpr hlong)]
  exact ⟨wrapLoop (maxCharsOf mw fs) ws w, rfl,
    wrapLoop_mem_long _ ws w hlong hword.1 hword.2 hwords⟩

set_option maxRecDepth 8000 in
/-- Witness for C10: the single word `"abcdef"` exceeds the budget 4, so the
result starts with an empty line followed by the word itself. -/
theorem wrapText_long_first_word_witness :
    ∃ rest, wrapText "abcdef".toList 4 2 = [] :: rest ∧
      "abcdef".toList ∈ rest :=
  wrapText_long_first_word "abcdef".toList 4 2 "abcdef".toList []
    (by decide) (by with_unfolding_all decide)

/-! ## Lemmas about the color utilities -/

theorem isHexDig_not_spc {c : Char} (h : isHexDig c = true) : isSpc c = false := by
  by_contra hco
  have hs : isSpc c = true := by simpa using hco
  unfold isSpc at hs
  simp only [Bool.or_eq_true, beq_iff_eq] at hs
  rcases hs with ((((h1 | h1) | h1) | h1) | h1) | h1 <;>
    subst h1 <;> exact absurd h (by decide)

theorem isHexDig_ne_hash {c : Char} (h : isHexDig c = true) :
    (c == '#') = false := by
  by_contra hco
  have hc : c = '#' := by simpa using (Bool.not_eq_false _).mp hco
  subst hc
  exact absurd h (by decide)

theorem pyIntBase16_ok (xs : List Char) (hne : xs ≠ [])
    (hdig : ∀ c ∈ xs, isHexDig c = true) :
    pyIntBase16 xs = .ok (xs.foldl (fun a c => 16 * a + hexVal c) 0) := by
  unfold pyIntBase16
  rw [if_pos ⟨hne, by rw [List.all_eq_true]; exact hdig⟩]

theorem hexToRgb_drop_hash (s : List Char) (hne : s ≠ [])
    (hdig : ∀ c ∈ s, isHexDig c = true) :
    hexToRgb ('#' :: s) = hexToRgb s := by
  simp only [hexToRgb]
  have hs1 : strip s = s :=
    strip_all_neg (fun c hc => isHexDig_not_spc (hdig c hc))
  have hs2 : strip ('#' :: s) = '#' :: s := by
    refine strip_all_neg ?_
    intro c hc
    rcases List.mem_cons.mp hc with rfl | hc2
    · decide
    · exact isHexDig_not_spc (hdig c hc2)
  have hd1 : s.dropWhile (fun c => c == '#') = s :=
    dropWhile_all_neg (fun c hc => isHexDig_ne_hash (hdig c hc))
  rw [hs1, hs2, List.dropWhile_cons_of_pos (by decide), hd1]

theorem doubled_length (s : List Char) :
    (s.flatMap fun c => [c, c]).length = 2 * s.length := by
  induction s with
  | nil => rfl
  | cons a t ih =>
    simp only [List.flatMap_cons, List.length_append, List.length_cons, ih]
    simp
    omega

theorem doubled_all (s : List Char) (hdig : ∀ c ∈ s, isHexDig c = true) :
    ∀ c ∈ (s.flatMap fun d => [d, d]), isHexDig c = true := by
  intro c hc
  rw [List.mem_flatMap] at hc
  obtain ⟨a, ha, hca⟩ := hc
  have hce : c = a := by
    rcases List.mem_cons.mp hca with h2 | h2
    · exact h2
    · simpa using h2
  rw [hce]
  exact hdig a ha

theorem hexToRgb_ok (s : List Char) (hlen : s.length = 3 ∨ s.length = 6)
    (hdig : ∀ c ∈ s, isHexDig c = true) :
    ∃ t, hexToRgb s = .ok t := by
  simp only [hexToRgb]
  have hs1 : strip s = s :=
    strip_all_neg (fun c hc => isHexDig_not_spc (hdig c hc))
  have hd1 : s.dropWhile (fun c => c == '#') = s :=
    dropWhile_all_neg (fun c hc => isHexDig_ne_hash (hdig c hc))
  rw [hs1, hd1]
  set h6 := if s.length = 3 then s.flatMap (fun c => [c, c]) else s with hh6
  have hlen6 : h6.length = 6 := by
    rcases hlen with h3 | h3
    · rw [hh6, if_pos h3, doubled_length, h3]
    · rw [hh6, if_neg (by omega), h3]
  have hdig6 : ∀ c ∈ h6, isHexDig c = true := by
    rcases hlen with h3 | h3
    · rw [hh6, if_pos h3]; exact doubled_all s hdig
    · rw [hh6, if_neg (by omega)]; exact hdig
  rw [if_neg (by omega)]
  have hr := pyIntBase16_ok (h6.take 2)
    (by
      have : (h6.take 2).length = 2 := by rw [List.length_take]; omega
      intro hnil; rw [hnil] at this; simp at this)
    (fun c hc => hdig6 c (List.take_subset _ _ hc))
  have hg := pyIntBase16_ok ((h6.drop 2).take 2)
    (by
      have : ((h6.drop 2).take 2).length = 2 := by
        rw [List.length_take, List.length_drop]; omega
      intro hnil; rw [hnil] at this; simp at this)
    (fun c hc => hdig6 c (List.drop_subset _ _ (List.take_subset _ _ hc)))
  have hb := pyIntBase16_ok ((h6.drop 4).take 2)
    (by
      have : ((h6.drop 4).take 2).length = 2 := by
        rw [List.length_take, List.length_drop]; omega
      intro hnil; rw [hnil] at this; simp at this)
    (fun c hc => hdig6 c (List.drop_subset _ _ (List.take_subset _ _ hc)))
  rw [hr, hg, hb]
  exact ⟨_, rfl⟩

/-! ## Claims about color resolution and links -/

/-- **C8 counterexample.**  The claim says color resolution in `add_text`
accepts a valid hex string with and without the leading `#` marker.  In
`parse_color` (pdfgen.py:165-175) only a string starting with `#` is routed
to `hex_to_rgb`; the bare 6-digit hex string `"FF0000"` falls through to
the color-name lookup and raises `ValueError("Unknown color: ...")`,
while `"#FF0000"` resolves to `(255, 0, 0)`. -/
theorem bare_hex_rejected :
    parseColorStr "FF0000".toList = .error PyErr.valueError ∧
    parseColorStr "#FF0000".toList = .ok (255, 0, 0) := by
  exact ⟨by decide, by decide⟩

/-- **C8 (amended).**  The marker-insensitivity the claim describes holds
one level down, in `hex_to_rgb` (pdfgen.py:21 strips any leading `#`): for
every valid 3- or 6-digit hex string, `hex_to_rgb` yields the same triple
with and without the marker, and `add_text`'s color resolution
(`parse_color`) yields exactly that triple for the `#`-prefixed form — but
`parse_color` rejects the bare form (see the counterexample), so the two
spellings are interchangeable only when calling `hex_to_rgb` directly.
Equal parsed triples trivially normalize (`max(0, min(255, c)) / 255`,
pdfgen.py:178) to the same values. -/
theorem hex_marker_insensitive (s : List Char)
    (hlen : s.length = 3 ∨ s.length = 6)
    (hdig : ∀ c ∈ s, isHexDig c = true) :
    hexToRgb ('#' :: s) = hexToRgb s ∧
    ∃ t, hexToRgb s = .ok t ∧ parseColorStr ('#' :: s) = .ok t := by
  have hne : s ≠ [] := by
    intro h
    subst h
    simp at hlen
  have heq := hexToRgb_drop_hash s hne hdig
  obtain ⟨t, ht⟩ := hexToRgb_ok s hlen hdig
  refine ⟨heq, t, ht, ?_⟩
  have hp : parseColorStr ('#' :: s) = hexToRgb ('#' :: s) := by
    unfold parseColorStr
    have hcond : ('#' :: s).head? = some '#' := rfl
    rw [if_pos hcond]
  rw [hp, heq, ht]

/-- Witness for C8 (amended): the 3-digit hex string `"F00"`. -/
theorem hex_marker_insensitive_witness :
    hexToRgb ('#' :: "F00".toList) = hexToRgb "F00".toList ∧
    ∃ t, hexToRgb "F00".toList = .ok t ∧
      parseColorStr ('#' :: "F00".toList) = .ok t :=
  hex_marker_insensitive "F00".toList (by decide) (by decide)

theorem addTextLinkLoop_eq (x y size : ℚ) (align : String) (uri : List Char) :
    ∀ (ls : List (List Char)) (i : Nat),
      addTextLinkLoop x y size align uri i ls =
        (ls.enumFrom i).map fun p =>
          ⟨lineX x (textWidth size p.2) align, lineY y size p.1,
            textWidth size p.2, size, uri⟩ := by
  intro ls
  induction ls with
  | nil => intro i; rfl
  | cons l t ih =>
    intro i
    simp only [addTextLinkLoop, List.enumFrom_cons, List.map_cons, ih]

set_option maxRecDepth 8000 in
/-- **C9 counterexample.**  The claim says one `add_text` call with a link
records one link region (the most recently emitted line's rectangle), also
under wrapping.  But the append `self.links.append(...)` sits inside the
per-line loop (pdfgen.py:195-262): a call whose text wraps into two lines
records two link regions, not one. -/
theorem link_recorded_per_line :
    (addTextLinks [] "aa bb".toList 0 0 2 "left" (some 4) (some "u".toList)).length
      = 2 := by
  with_unfolding_all decide

/-- **C9 (amended).**  An `add_text` call carrying a link records one link
region per emitted line — each being exactly that line's bounding rectangle
(alignment-shifted x, per-index y drop, estimated width, height = size) —
appended in line order after the page's existing links.  In particular the
most recently recorded region is the most recently emitted line's
rectangle, and for a call that does not wrap (a single line) exactly one
region is recorded. -/
theorem addText_links_one_per_line (links0 : List SLink) (text : List Char)
    (x y size : ℚ) (align : String) (maxWidth : Option ℚ) (uri : List Char) :
    addTextLinks links0 text x y size align maxWidth (some uri) =
      links0 ++ (textLines text maxWidth size).enum.map (fun p =>
        ⟨lineX x (textWidth size p.2) align, lineY y size p.1,
          textWidth size p.2, size, uri⟩) ∧
    (addTextLinks links0 text x y size align maxWidth (some uri)).length =
      links0.length + (textLines text maxWidth size).length := by
  have h1 : addTextLinks links0 text x y size align maxWidth (some uri) =
      links0 ++ (textLines text maxWidth size).enum.map (fun p =>
        ⟨lineX x (textWidth size p.2) align, lineY y size p.1,
          textWidth size p.2, size, uri⟩) := by
    show links0 ++
      addTextLinkLoop x y size align uri 0 (textLines text maxWidth size) = _
    rw [addTextLinkLoop_eq, List.enum_eq_enumFrom]
  refine ⟨h1, ?_⟩
  rw [h1]
  simp [List.length_append, List.length_map, List.enumFrom_length]
